import Mathlib

/-!
Shallow embedding of `src/llm_webui/server.py` (llm-webui), a FastAPI server
that translates HTTP requests into invocations of the external `llm` CLI.

Modelling conventions:
* A completed `subprocess.run(..., capture_output=True, text=True)` call is a
  `RunResult` (exit code, stdout, stderr).  Endpoints that spawn a subprocess
  take an `ex : List String → RunResult` parameter: `ex argv` is the result of
  running that argument vector.  `check=True` raising `CalledProcessError` on a
  non-zero exit code is modelled by testing `exitCode ≠ 0`.
* `json.loads` is modelled by a parameter `parse : String → Option JVal`
  (`none` = `json.JSONDecodeError`); for the conversations endpoint, which
  immediately consumes rows of a known shape, by
  `parseLogs : String → Option (List LogRow)`.
* `raise HTTPException(status_code, detail)` becomes `ApiResult.httpError`.
* Python truthiness on optional strings/collections (`if request.model:`,
  `if not options:`) is modelled explicitly (`none`, empty string and empty
  list are falsy).
* Machine integers do not overflow here (Python ints); exit codes are `Int`.
-/

/-- Minimal JSON value universe, for payloads the server passes through. -/
inductive JVal where
  | null : JVal
  | jbool : Bool → JVal
  | jnum : Int → JVal
  | jstr : String → JVal
  | jarr : List JVal → JVal
  | jobj : List (String × JVal) → JVal

/-- Outcome of one `subprocess.run(..., capture_output=True, text=True)`. -/
structure RunResult where
  exitCode : Int
  stdout : String
  stderr : String
deriving DecidableEq, Repr

/-- Result of an endpoint handler: a JSON-serialisable value or an
`HTTPException(status_code, detail)`. -/
inductive ApiResult (α : Type) where
  | ok : α → ApiResult α
  | httpError : Nat → String → ApiResult α
deriving DecidableEq, Repr

/-- Whether an `ApiResult` is an `HTTPException`. -/
def ApiResult.isError {α : Type} : ApiResult α → Bool
  | .ok _ => false
  | .httpError _ _ => true

/-- Handler `get_models` (`GET /api/models`, server.py lines 73-87): run
`llm models list --json`; non-zero exit → 500 with stderr; JSON decode
error → 500 "Failed to parse models response"; else pass the value through. -/
def get_models (ex : List String → RunResult) (parse : String → Option JVal) :
    ApiResult JVal :=
  let r := ex ["llm", "models", "list", "--json"]
  if r.exitCode ≠ 0 then
    .httpError 500 ("Failed to get models: " ++ r.stderr)
  else
    match parse r.stdout with
    | some v => .ok v
    | none => .httpError 500 "Failed to parse models response"

/-- Handler `get_tools` (`GET /api/tools`, server.py lines 108-122): run
`llm tools list --json`; non-zero exit → 500 with stderr; JSON decode error →
the empty default `\x7b"tools": []\x7d`. -/
def get_tools (ex : List String → RunResult) (parse : String → Option JVal) :
    ApiResult JVal :=
  let r := ex ["llm", "tools", "list", "--json"]
  if r.exitCode ≠ 0 then
    .httpError 500 ("Failed to get tools: " ++ r.stderr)
  else
    match parse r.stdout with
    | some v => .ok v
    | none => .ok (.jobj [("tools", .jarr [])])

/-- Handler `get_logs` (`GET /api/logs?count=N`, server.py lines 303-317): run
`llm logs list -n N --json`; non-zero exit → 500 with stderr; JSON decode
error → the empty default `\x7b"logs": []\x7d`. -/
def get_logs (ex : List String → RunResult) (parse : String → Option JVal)
    (count : Int) : ApiResult JVal :=
  let r := ex ["llm", "logs", "list", "-n", toString count, "--json"]
  if r.exitCode ≠ 0 then
    .httpError 500 ("Failed to get logs: " ++ r.stderr)
  else
    match parse r.stdout with
    | some v => .ok v
    | none => .ok (.jobj [("logs", .jarr [])])

/-- One row of `llm logs list --json` output, with the fields the server
reads.  Each field is `none` when the key is absent or `null` in the JSON. -/
structure LogRow where
  conversation_id : Option String
  datetime_utc : Option String
  model : Option String
  prompt : Option String
deriving DecidableEq, Repr

/-- One aggregated conversation summary, as built by `list_conversations`. -/
structure ConvSummary where
  conversation_id : String
  latest : Option String
  model : Option String
  count : Nat
  last_prompt : String
deriving DecidableEq, Repr

/-- Python truthiness of an optional string (`None` and `""` are falsy). -/
def pyTruthy : Option String → Bool
  | none => false
  | some s => s ≠ ""

/-- Lexicographic comparison of character lists by code point, as Python
compares strings with `<` / `>`. -/
def charListLt : List Char → List Char → Bool
  | [], [] => false
  | [], _ :: _ => true
  | _ :: _, [] => false
  | a :: as, b :: bs => if a < b then true else if b < a then false else charListLt as bs

/-- Python's `a < b` on strings. -/
def pyStrLt (a b : String) : Bool :=
  charListLt a.data b.data

/-- Python's `a <= b` on strings (total order: the negation of `b < a`). -/
def pyStrLe (a b : String) : Bool :=
  !pyStrLt b a

/-- The dict created by `convs.setdefault(cid, ...)` (server.py lines
376-385): count starts at 0, latest/model/last_prompt from the current row. -/
def initConv (cid : String) (r : LogRow) : ConvSummary :=
  { conversation_id := cid
    latest := r.datetime_utc
    model := r.model
    count := 0
    last_prompt := r.prompt.getD "" }

/-- Effect of one row on its conversation's dict entry (server.py lines
386-393): `conv["count"] += 1`, then, when the row's `datetime_utc` is truthy
and either the stored `latest` is falsy or the row's datetime is
lexicographically greater, update `latest`, `last_prompt` and `model`. -/
def applyRow (c : ConvSummary) (r : LogRow) : ConvSummary :=
  let c1 : ConvSummary := { c with count := c.count + 1 }
  match r.datetime_utc with
  | none => c1
  | some dt =>
    if dt = "" then c1
    else if (!pyTruthy c1.latest) || pyStrLt (c1.latest.getD "") dt then
      { c1 with latest := some dt, last_prompt := r.prompt.getD "", model := r.model }
    else c1

/-- Process one log row into the (insertion-ordered) conversation dict,
modelled as a list of summaries keyed by `conversation_id`: rows with a falsy
`conversation_id` are skipped; otherwise `setdefault` plus the in-place
update of `applyRow`. -/
def insertRow (convs : List ConvSummary) (r : LogRow) : List ConvSummary :=
  match r.conversation_id with
  | none => convs
  | some cid =>
    if cid = "" then convs
    else if convs.any (fun c => c.conversation_id = cid) then
      convs.map (fun c => if c.conversation_id = cid then applyRow c r else c)
    else
      convs ++ [applyRow (initConv cid r) r]

/-- The conversation dict after processing all rows (the `for row in logs`
loop of server.py lines 371-393), values in key-insertion order as Python
dicts preserve it. -/
def buildConvs (rows : List LogRow) : List ConvSummary :=
  rows.foldl insertRow []

/-- Sort key `lambda x: x["latest"] or ""` (server.py line 396). -/
def convKey (c : ConvSummary) : String :=
  c.latest.getD ""

/-- Python's `sorted(..., key=convKey, reverse=True)`: a stable sort placing
greater keys first, realised as a stable merge sort with the relation
"key of the left is ≥ key of the right". -/
def pySortByKeyRev (l : List ConvSummary) : List ConvSummary :=
  l.mergeSort (fun a b => pyStrLe (convKey b) (convKey a))

/-- Python list slicing `l[:n]` for an `int` bound (negative bounds count
from the end). -/
def pySliceTo (n : Int) (l : List α) : List α :=
  if n < 0 then l.take (l.length - n.natAbs) else l.take n.toNat

/-- The pure aggregation at the heart of `list_conversations` (server.py
lines 369-397): group rows by conversation id, sort summaries by latest
descending, truncate to `limit`. -/
def list_conversations_agg (rows : List LogRow) (limit : Int) :
    List ConvSummary :=
  pySliceTo limit (pySortByKeyRev (buildConvs rows))

/-- Handler `list_conversations` (`GET /api/conversations?limit=50`,
server.py lines 358-401): run `llm logs list -n 0 --json`; non-zero exit →
500 with stderr; JSON decode error → `[]`; else aggregate. -/
def list_conversations (ex : List String → RunResult)
    (parseLogs : String → Option (List LogRow)) (limit : Int) :
    ApiResult (List ConvSummary) :=
  let r := ex ["llm", "logs", "list", "-n", "0", "--json"]
  if r.exitCode ≠ 0 then
    .httpError 500 ("Failed to list conversations: " ++ r.stderr)
  else
    match parseLogs r.stdout with
    | some logs => .ok (list_conversations_agg logs limit)
    | none => .ok []

/-- Observable behaviour of one streamed subprocess, from the generator's
point of view (server.py lines 251-271): an exception may be raised while
spawning; otherwise some decoded lines are read, after which either an
exception is raised (while reading a line, awaiting exit, or reading stderr)
or the stream reaches EOF and the process exits with `exitCode`, its captured
stderr being `stderrText`. -/
structure StreamBehavior where
  spawnExc : Option String
  readLines : List String
  readExc : Option String
  exitCode : Int
  stderrText : String
deriving DecidableEq, Repr

/-- Generator `stream_llm_response` (server.py lines 251-271): yield each
decoded stdout line; after EOF, if the exit code is non-zero yield one
`"\nError: " ++ stderr` chunk; any exception is caught and yielded as a
single `"\nError: " ++ message` chunk. -/
def stream_llm_response (b : StreamBehavior) : List String :=
  match b.spawnExc with
  | some e => ["\nError: " ++ e]
  | none =>
    match b.readExc with
    | some e => b.readLines ++ ["\nError: " ++ e]
    | none =>
      if b.exitCode ≠ 0 then b.readLines ++ ["\nError: " ++ b.stderrText]
      else b.readLines

/-- Observable behaviour of one streamed chat subprocess (server.py lines
274-300): like `StreamBehavior`, with an additional stage in which writing
the message to the child's stdin may raise. -/
structure ChatStreamBehavior where
  spawnExc : Option String
  stdinExc : Option String
  readLines : List String
  readExc : Option String
  exitCode : Int
  stderrText : String
deriving DecidableEq, Repr

/-- What the generator did to the child's standard input: the text written
and whether the stream was closed. -/
structure StdinTrace where
  written : String
  closed : Bool
deriving DecidableEq, Repr

/-- Generator `stream_llm_chat_response` (server.py lines 274-300): write
`message + "\n"` to the child's stdin and close it, then stream exactly as
`stream_llm_response`.  Returns the yielded chunks and the stdin trace (for
a failure during the write stage, the partially transferred payload is not
modelled and the trace is reported empty/unclosed). -/
def stream_llm_chat_response (b : ChatStreamBehavior) (message : String) :
    List String × StdinTrace :=
  match b.spawnExc with
  | some e => (["\nError: " ++ e], ⟨"", false⟩)
  | none =>
    match b.stdinExc with
    | some e => (["\nError: " ++ e], ⟨"", false⟩)
    | none =>
      let tr : StdinTrace := ⟨message ++ "\n", true⟩
      match b.readExc with
      | some e => (b.readLines ++ ["\nError: " ++ e], tr)
      | none =>
        if b.exitCode ≠ 0 then (b.readLines ++ ["\nError: " ++ b.stderrText], tr)
        else (b.readLines, tr)

/-- Body of `PromptRequest` (server.py lines 21-34).  `Dict[str, Any]`
mappings are insertion-ordered association lists whose values stand for the
`str(value)` rendering the builder applies; `attachment_types` entries are
the `[path, mimetype]` pairs. -/
structure PromptRequest where
  prompt : String
  model : Option String
  system : Option String
  attachments : Option (List String)
  attachment_types : Option (List (String × String))
  template : Option String
  options : Option (List (String × String))
  tools : Option (List String)
  stream : Bool
  reasoning : Option (List (String × String))
  extra_args : Option String
deriving DecidableEq, Repr

/-- Body of `ChatMessage` (server.py lines 37-45). -/
structure ChatMessage where
  message : String
  model : Option String
  conversation_id : Option String
  system : Option String
  tools : Option (List String)
  options : Option (List (String × String))
  reasoning : Option (List (String × String))
  extra_args : Option String
deriving DecidableEq, Repr

/-- One `if request.field: cmd.extend([flag, request.field])` block of the
builders (e.g. server.py lines 130-131): append nothing when the optional
string is falsy. -/
def addFlag (cmd : List String) (flag : String) : Option String → List String
  | none => cmd
  | some s => if s = "" then cmd else cmd ++ [flag, s]

/-- One `if request.field: for x in request.field: cmd.extend(f(x))` block of
the builders (e.g. server.py lines 139-141, 160-165): append nothing when
the optional list is falsy, else extend per element in order. -/
def addEach (cmd : List String) (f : α → List String) : Option (List α) → List String
  | none => cmd
  | some [] => cmd
  | some (x :: xs) => (x :: xs).foldl (fun c y => c ++ f y) cmd

/-- The local helper `add_options` (server.py lines 143-148 and 212-216):
`if not options: return`, else extend `cmd` with `-o str(key) str(value)`
per entry. -/
def add_options (cmd : List String) : Option (List (String × String)) → List String
  | none => cmd
  | some kvs =>
    if kvs = [] then cmd
    else kvs.foldl (fun c kv => c ++ ["-o", kv.1, kv.2]) cmd

/-- The reasoning block of the builders (server.py lines 151-157 and
219-223): when the mapping is truthy, try `json.dumps` (modelled by `dumps`,
`none` when it raises) and extend with `-o reasoning <json>`; on failure
fall back to `add_options`. -/
def addReasoning (dumps : List (String × String) → Option String)
    (cmd : List String) : Option (List (String × String)) → List String
  | none => cmd
  | some m =>
    if m = [] then cmd
    else match dumps m with
      | some s => cmd ++ ["-o", "reasoning", s]
      | none => add_options cmd (some m)

/-- The extra-flags block of the builders (server.py lines 169-173 and
225-229): when the string is truthy, try `shlex.split` (modelled by `tok`,
`none` when it raises) and splice the tokens in; on failure `pass`. -/
def addExtra (tok : String → Option (List String)) (cmd : List String) :
    Option String → List String
  | none => cmd
  | some s =>
    if s = "" then cmd
    else match tok s with
      | some ts => cmd ++ ts
      | none => cmd

/-- Argument-vector construction of `execute_prompt` (server.py lines
128-174), parametric in `dumps` (= `json.dumps`) and `tok` (= `shlex.split`).
Each `let cmd := ...` line is one source block, in source order; the prompt
is appended last. -/
def execute_prompt_cmd (dumps : List (String × String) → Option String)
    (tok : String → Option (List String)) (r : PromptRequest) : List String :=
  let cmd := ["llm", "prompt"]
  let cmd := addFlag cmd "-m" r.model
  let cmd := addFlag cmd "-s" r.system
  let cmd := addFlag cmd "-t" r.template
  let cmd := addEach cmd (fun t => ["-T", t]) r.tools
  let cmd := add_options cmd r.options
  let cmd := addReasoning dumps cmd r.reasoning
  let cmd := addEach cmd (fun p => ["-a", p]) r.attachments
  let cmd := addEach cmd (fun pm => ["--at", pm.1, pm.2]) r.attachment_types
  let cmd := addExtra tok cmd r.extra_args
  cmd ++ [r.prompt]

/-- Argument-vector construction of `chat_message` (server.py lines
197-229): like the prompt builder but with `--cid` and without appending the
message, which goes to stdin instead. -/
def chat_message_cmd (dumps : List (String × String) → Option String)
    (tok : String → Option (List String)) (m : ChatMessage) : List String :=
  let cmd := ["llm", "chat"]
  let cmd := addFlag cmd "-m" m.model
  let cmd := addFlag cmd "--cid" m.conversation_id
  let cmd := addFlag cmd "-s" m.system
  let cmd := addEach cmd (fun t => ["-T", t]) m.tools
  let cmd := add_options cmd m.options
  let cmd := addReasoning dumps cmd m.reasoning
  let cmd := addExtra tok cmd m.extra_args
  cmd

/-- Buffered branch of `execute_prompt` (server.py lines 181-191): run the
command to completion; non-zero exit → 500 whose detail carries the captured
stderr; else return stdout. -/
def execute_prompt_run (res : RunResult) : ApiResult String :=
  if res.exitCode ≠ 0 then .httpError 500 ("LLM command failed: " ++ res.stderr)
  else .ok res.stdout

/-- An uploaded multipart file as the handler sees it: name, raw bytes,
declared content type. -/
structure UploadFileIn where
  filename : String
  content : List Nat
  content_type : String
deriving DecidableEq, Repr

/-- Response body of a successful upload. -/
structure UploadOut where
  filename : String
  path : String
  size : Nat
  mimetype : String
deriving DecidableEq, Repr

/-- Handler `upload_file` (`POST /api/upload`, server.py lines 237-248),
parametric in the temp-file outcome `tmp` (`.ok path` = the named temporary
file was created at `path` and the bytes written; `.error e` = some step
raised `e`): on success report filename, temp path, byte count and MIME
type; on exception an HTTP 500. -/
def upload_file (tmp : Except String String) (f : UploadFileIn) : ApiResult UploadOut :=
  match tmp with
  | .error e => .httpError 500 ("File upload failed: " ++ e)
  | .ok p => .ok ⟨f.filename, p, f.content.length, f.content_type⟩

/-- Handler `upload_clipboard_image` (`POST /api/upload-clipboard`,
server.py lines 421-425): delegates to `upload_file`. -/
def upload_clipboard_image (tmp : Except String String) (f : UploadFileIn) :
    ApiResult UploadOut :=
  upload_file tmp f

/-- Tokens contributed by one `addFlag` block, in isolation. -/
def flagTokens (flag : String) : Option String → List String
  | none => []
  | some s => if s = "" then [] else [flag, s]

/-- Tokens contributed by one `addEach` block, in isolation. -/
def eachTokens (f : α → List String) : Option (List α) → List String
  | none => []
  | some xs => xs.flatMap f

/-- Tokens contributed by the `add_options` block, in isolation: the
`-o key value` triples, one per mapping entry, in insertion order. -/
def optionTokens : Option (List (String × String)) → List String
  | none => []
  | some kvs => kvs.flatMap (fun kv => ["-o", kv.1, kv.2])

/-- Tokens contributed by the reasoning block, in isolation. -/
def reasoningTokens (dumps : List (String × String) → Option String) :
    Option (List (String × String)) → List String
  | none => []
  | some m =>
    if m = [] then []
    else match dumps m with
      | some s => ["-o", "reasoning", s]
      | none => optionTokens (some m)

/-- Tokens contributed by the extra-flags block, in isolation. -/
def extraTokens (tok : String → Option (List String)) : Option String → List String
  | none => []
  | some s =>
    if s = "" then []
    else match tok s with
      | some ts => ts
      | none => []

/-- Number of argument positions at which the consecutive three tokens are
`-o`, `k`, `v` (a sliding window over the vector). -/
def tripleCount (k v : String) : List String → Nat
  | a :: b :: c :: rest =>
      (if a = "-o" ∧ b = k ∧ c = v then 1 else 0) + tripleCount k v (b :: c :: rest)
  | _ => 0

/-- First conversation entry with the given id, mirroring a Python dict
access on the insertion-ordered model. -/
def lookupConv (cid : String) (l : List ConvSummary) : Option ConvSummary :=
  l.find? (fun c => c.conversation_id == cid)

/-- The keys of the conversation dict, in insertion order. -/
def convKeys (l : List ConvSummary) : List String :=
  l.map (fun c => c.conversation_id)

/-- The truthy conversation ids of the rows, in row order and with
multiplicity (the rows the grouping loop does not skip). -/
def truthyCids (rows : List LogRow) : List String :=
  rows.filterMap (fun r =>
    match r.conversation_id with
    | some c => if c = "" then none else some c
    | none => none)

/-- The rows belonging to one conversation id. -/
def rowsFor (cid : String) (rows : List LogRow) : List LogRow :=
  rows.filter (fun r => r.conversation_id == some cid)

/-- Number of entries of the mapping equal to the given key/value pair. -/
def pairCount (k v : String) (kvs : List (String × String)) : Nat :=
  (kvs.filter (fun kv => kv = (k, v))).length

theorem pairCount_nil (k v : String) : pairCount k v [] = 0 := rfl

theorem pairCount_cons (k v : String) (kv : String × String)
    (rest : List (String × String)) :
    pairCount k v (kv :: rest) =
      (if kv = (k, v) then 1 else 0) + pairCount k v rest := by
  by_cases h : kv = (k, v) <;> simp [pairCount, h, Nat.add_comm]

theorem pairCount_eq_zero (k v : String) (kvs : List (String × String))
    (h : ∀ kv ∈ kvs, kv ≠ (k, v)) : pairCount k v kvs = 0 := by
  induction kvs with
  | nil => rfl
  | cons kv rest ih =>
    rw [pairCount_cons, ih (fun x hx => h x (by simp [hx]))]
    simp [h kv (by simp)]

theorem pairCount_eq_one_of_mem (k v : String) (kvs : List (String × String))
    (hnd : (kvs.map Prod.fst).Nodup) (hm : (k, v) ∈ kvs) :
    pairCount k v kvs = 1 := by
  induction kvs with
  | nil => cases hm
  | cons kv rest ih =>
    rw [List.map_cons] at hnd
    have hk1 : kv.1 ∉ rest.map Prod.fst := (List.nodup_cons.mp hnd).1
    have hndr : (rest.map Prod.fst).Nodup := (List.nodup_cons.mp hnd).2
    rw [pairCount_cons]
    rcases List.mem_cons.mp hm with h | h
    · have hz : pairCount k v rest = 0 := by
        refine pairCount_eq_zero k v rest (fun x hx hcx => absurd ?_ hk1)
        have hx1 : x.1 = kv.1 := by rw [hcx, ← h]
        rw [← hx1]
        exact List.mem_map.mpr ⟨x, hx, rfl⟩
      rw [if_pos h.symm, hz]
    · have hne : kv ≠ (k, v) := by
        intro hc
        apply hk1
        have hkm : k ∈ rest.map Prod.fst := List.mem_map.mpr ⟨(k, v), h, rfl⟩
        rw [hc]
        exact hkm
      rw [if_neg hne, ih hndr h]

theorem foldl_extend (f : α → List String) (xs : List α) (init : List String) :
    xs.foldl (fun c x => c ++ f x) init = init ++ xs.flatMap f := by
  induction xs generalizing init with
  | nil => simp
  | cons x xs ih => simp [ih, List.append_assoc]

theorem addFlag_eq (cmd : List String) (flag : String) (o : Option String) :
    addFlag cmd flag o = cmd ++ flagTokens flag o := by
  cases o with
  | none => simp [addFlag, flagTokens]
  | some s =>
    by_cases h : s = "" <;> simp [addFlag, flagTokens, h]

theorem addEach_eq (cmd : List String) (f : α → List String) (o : Option (List α)) :
    addEach cmd f o = cmd ++ eachTokens f o := by
  match o with
  | none => simp [addEach, eachTokens]
  | some [] => simp [addEach, eachTokens]
  | some (x :: xs) => simp [addEach, eachTokens, foldl_extend]

theorem add_options_eq (cmd : List String) (o : Option (List (String × String))) :
    add_options cmd o = cmd ++ optionTokens o := by
  cases o with
  | none => simp [add_options, optionTokens]
  | some kvs =>
    by_cases h : kvs = [] <;> simp [add_options, optionTokens, h, foldl_extend]

theorem addReasoning_eq (dumps : List (String × String) → Option String)
    (cmd : List String) (o : Option (List (String × String))) :
    addReasoning dumps cmd o = cmd ++ reasoningTokens dumps o := by
  cases o with
  | none => simp [addReasoning, reasoningTokens]
  | some m =>
    by_cases h : m = []
    · simp [addReasoning, reasoningTokens, h]
    · cases hd : dumps m <;>
        simp [addReasoning, reasoningTokens, h, hd, add_options_eq]

theorem addExtra_eq (tok : String → Option (List String)) (cmd : List String)
    (o : Option String) :
    addExtra tok cmd o = cmd ++ extraTokens tok o := by
  cases o with
  | none => simp [addExtra, extraTokens]
  | some s =>
    by_cases h : s = ""
    · simp [addExtra, extraTokens, h]
    · cases ht : tok s <;> simp [addExtra, extraTokens, h, ht]

theorem execute_prompt_cmd_decomp (dumps : List (String × String) → Option String)
    (tok : String → Option (List String)) (r : PromptRequest) :
    execute_prompt_cmd dumps tok r =
      ["llm", "prompt"] ++ flagTokens "-m" r.model ++ flagTokens "-s" r.system
        ++ flagTokens "-t" r.template ++ eachTokens (fun t => ["-T", t]) r.tools
        ++ optionTokens r.options ++ reasoningTokens dumps r.reasoning
        ++ eachTokens (fun p => ["-a", p]) r.attachments
        ++ eachTokens (fun pm => ["--at", pm.1, pm.2]) r.attachment_types
        ++ extraTokens tok r.extra_args ++ [r.prompt] := by
  unfold execute_prompt_cmd
  simp only [addFlag_eq, addEach_eq, add_options_eq, addReasoning_eq, addExtra_eq,
    List.append_assoc]

theorem chat_message_cmd_decomp (dumps : List (String × String) → Option String)
    (tok : String → Option (List String)) (m : ChatMessage) :
    chat_message_cmd dumps tok m =
      ["llm", "chat"] ++ flagTokens "-m" m.model ++ flagTokens "--cid" m.conversation_id
        ++ flagTokens "-s" m.system ++ eachTokens (fun t => ["-T", t]) m.tools
        ++ optionTokens m.options ++ reasoningTokens dumps m.reasoning
        ++ extraTokens tok m.extra_args := by
  unfold chat_message_cmd
  simp only [addFlag_eq, addEach_eq, add_options_eq, addReasoning_eq, addExtra_eq,
    List.append_assoc]

/-- C1: the claim as stated is false: for the models endpoint, with the
external command exiting 0 and stdout that fails to parse as JSON,
`get_models` surfaces the parse failure as an HTTP 500 instead of returning
an empty default (server.py lines 86-87). -/
theorem c1_models_parse_failure_counterexample :
    get_models (fun _ => ⟨0, "not json", ""⟩) (fun _ => none) =
      ApiResult.httpError 500 "Failed to parse models response" := rfl

/-- C1 (amended): when the external command exits 0 and its stdout is not
valid JSON, the tools, logs and conversations listing endpoints return their
documented empty defaults without an HTTP error, while the models endpoint
surfaces the parse failure as an HTTP 500. -/
theorem c1_listing_parse_failure_defaults (ex : List String → RunResult)
    (parse : String → Option JVal) (parseLogs : String → Option (List LogRow))
    (count limit : Int)
    (hexit : ∀ c, (ex c).exitCode = 0)
    (hparse : ∀ c, parse (ex c).stdout = none)
    (hlogs : ∀ c, parseLogs (ex c).stdout = none) :
    get_tools ex parse = .ok (.jobj [("tools", .jarr [])]) ∧
    get_logs ex parse count = .ok (.jobj [("logs", .jarr [])]) ∧
    list_conversations ex parseLogs limit = .ok [] ∧
    get_models ex parse = .httpError 500 "Failed to parse models response" := by
  refine ⟨?_, ?_, ?_, ?_⟩ <;>
    simp [get_tools, get_logs, list_conversations, get_models, hexit, hparse, hlogs]

/-- Witness for the amended C1 at a concrete executor and failing parser. -/
theorem c1_listing_parse_failure_defaults_witness :
    get_tools (fun _ => ⟨0, "oops", ""⟩) (fun _ => none) =
        .ok (.jobj [("tools", .jarr [])]) ∧
    get_logs (fun _ => ⟨0, "oops", ""⟩) (fun _ => none) 5 =
        .ok (.jobj [("logs", .jarr [])]) ∧
    list_conversations (fun _ => ⟨0, "oops", ""⟩) (fun _ => none) 50 = .ok [] ∧
    get_models (fun _ => ⟨0, "oops", ""⟩) (fun _ => none) =
        .httpError 500 "Failed to parse models response" :=
  c1_listing_parse_failure_defaults (fun _ => ⟨0, "oops", ""⟩) (fun _ => none)
    (fun _ => none) 5 50 (fun _ => rfl) (fun _ => rfl) (fun _ => rfl)

/-- C3: a streamed command that produces exactly the given lines and exits
with code 0 yields exactly those chunks, in order, with no trailing error
chunk. -/
theorem c3_stream_success_yields_lines (lines : List String) (stText : String) :
    stream_llm_response ⟨none, lines, none, 0, stText⟩ = lines ∧
    (stream_llm_response ⟨none, lines, none, 0, stText⟩).length = lines.length := by
  constructor <;> simp [stream_llm_response]

/-- C4: on a non-zero exit code the surfaced error text contains the
captured stderr: the stream's final chunk is a newline, then "Error: ", then
the stderr (after all stdout chunks), and the buffered prompt path raises an
HTTP 500 whose detail carries the stderr. -/
theorem c4_nonzero_exit_error_contains_stderr (lines : List String) (ec : Int)
    (stText sout serr : String) (hec : ec ≠ 0) :
    stream_llm_response ⟨none, lines, none, ec, stText⟩ =
      lines ++ ["\nError: " ++ stText] ∧
    "\nError: " ++ stText = "\n" ++ ("Error: " ++ stText) ∧
    execute_prompt_run ⟨ec, sout, serr⟩ =
      .httpError 500 ("LLM command failed: " ++ serr) := by
  refine ⟨?_, ?_, ?_⟩
  · simp [stream_llm_response, hec]
  · rw [← String.append_assoc]
    congr 1
  · simp [execute_prompt_run, hec]

/-- Witness for C4 at a concrete failing process. -/
theorem c4_nonzero_exit_error_contains_stderr_witness :
    stream_llm_response ⟨none, ["part\n"], none, 1, "boom"⟩ =
      ["part\n"] ++ ["\nError: " ++ "boom"] ∧
    "\nError: " ++ "boom" = "\n" ++ ("Error: " ++ "boom") ∧
    execute_prompt_run ⟨1, "", "boom"⟩ =
      .httpError 500 ("LLM command failed: " ++ "boom") :=
  c4_nonzero_exit_error_contains_stderr ["part\n"] 1 "boom" "" "boom" (by decide)

/-- C5: an exception raised while spawning the child, writing its stdin
(chat), or reading its output is caught and surfaced as a single trailing
"\nError: " chunk, so both streaming generators always terminate with data
chunks and/or one error chunk. -/
theorem c5_exceptions_surface_as_error_chunk (lines : List String) (ec : Int)
    (stText e msg : String) (rex : Option String) :
    stream_llm_response ⟨some e, lines, rex, ec, stText⟩ = ["\nError: " ++ e] ∧
    stream_llm_response ⟨none, lines, some e, ec, stText⟩ =
      lines ++ ["\nError: " ++ e] ∧
    (stream_llm_chat_response ⟨some e, none, lines, rex, ec, stText⟩ msg).1 =
      ["\nError: " ++ e] ∧
    (stream_llm_chat_response ⟨none, some e, lines, rex, ec, stText⟩ msg).1 =
      ["\nError: " ++ e] ∧
    (stream_llm_chat_response ⟨none, none, lines, some e, ec, stText⟩ msg).1 =
      lines ++ ["\nError: " ++ e] :=
  ⟨rfl, rfl, rfl, rfl, rfl⟩

/-- C9: the chat message text never influences the built argument vector
(the builder is invariant under changing it); instead the message followed
by a single newline is written to the child's stdin, which is then closed. -/
theorem c9_chat_message_to_stdin (dumps : List (String × String) → Option String)
    (tok : String → Option (List String)) (m : ChatMessage)
    (s msg stText : String) (lines : List String) (rex : Option String) (ec : Int) :
    chat_message_cmd dumps tok { m with message := s } = chat_message_cmd dumps tok m ∧
    (stream_llm_chat_response ⟨none, none, lines, rex, ec, stText⟩ msg).2 =
      ⟨msg ++ "\n", true⟩ := by
  constructor
  · cases m
    rfl
  · cases rex with
    | some e => rfl
    | none => by_cases h : ec ≠ 0 <;> simp [stream_llm_chat_response, h]

/-- C10: the clipboard upload endpoint delegates to the upload handler, so
for every temp-file outcome and every uploaded file the two endpoints return
identical results. -/
theorem c10_upload_clipboard_equiv (tmp : Except String String) (f : UploadFileIn) :
    upload_clipboard_image tmp f = upload_file tmp f := rfl

theorem tripleCount_cons3 (k v a b c : String) (r : List String) :
    tripleCount k v (a :: b :: c :: r) =
      (if a = "-o" ∧ b = k ∧ c = v then 1 else 0) + tripleCount k v (b :: c :: r) := rfl

theorem tripleCount_skip (k v x : String) (rest : List String) (hx : x ≠ "-o") :
    tripleCount k v (x :: rest) = tripleCount k v rest := by
  match rest with
  | [] => rfl
  | [b] => rfl
  | b :: c :: r => simp [tripleCount_cons3, hx]

theorem tripleCount_triples (k v : String) (kvs : List (String × String))
    (tail : List String)
    (hk : ∀ kv ∈ kvs, kv.1 ≠ "-o") (hv : ∀ kv ∈ kvs, kv.2 ≠ "-o") :
    tripleCount k v (kvs.flatMap (fun kv => ["-o", kv.1, kv.2]) ++ tail) =
      pairCount k v kvs + tripleCount k v tail := by
  induction kvs with
  | nil => simp [tripleCount, pairCount_nil]
  | cons kv rest ih =>
    obtain ⟨k1, v1⟩ := kv
    have hk1 : k1 ≠ "-o" := hk (k1, v1) (by simp)
    have hv1 : v1 ≠ "-o" := hv (k1, v1) (by simp)
    have hkr : ∀ kv ∈ rest, kv.1 ≠ "-o" := fun kv h => hk kv (by simp [h])
    have hvr : ∀ kv ∈ rest, kv.2 ≠ "-o" := fun kv h => hv kv (by simp [h])
    rw [List.flatMap_cons]
    have hshape :
        (["-o", k1, v1] ++ rest.flatMap (fun kv => ["-o", kv.1, kv.2])) ++ tail =
          "-o" :: k1 :: v1 :: (rest.flatMap (fun kv => ["-o", kv.1, kv.2]) ++ tail) := by
      simp
    rw [hshape, tripleCount_cons3, tripleCount_skip k v k1 _ hk1,
      tripleCount_skip k v v1 _ hv1, ih hkr hvr, pairCount_cons]
    by_cases h : k1 = k ∧ v1 = v
    · have hp : ((k1, v1) : String × String) = (k, v) := by
        rw [h.1, h.2]
      simp [h, hp]
      omega
    · have hp : ((k1, v1) : String × String) ≠ (k, v) := by
        simp only [ne_eq, Prod.mk.injEq]
        exact h
      simp [h, hp]

theorem eq_char_mem (k v : String) : '=' ∈ (k ++ "=" ++ v).data := by
  rw [String.data_append, String.data_append]
  exact List.mem_append.mpr (.inl (List.mem_append.mpr (.inr (by decide))))

theorem ne_of_no_eq_char (k v t : String) (ht : '=' ∉ t.data) : k ++ "=" ++ v ≠ t := by
  intro h
  exact ht (h ▸ eq_char_mem k v)

/-- C6: the prompt builder keeps a fixed argument order: structured flags
first, then every `-a path` entry (input order), then every `--at path
mimetype` entry (input order), then the shell-word-split extra-flags tokens,
and the prompt text always last; when tokenizing the extra flags fails they
are silently dropped and the request still proceeds with the prompt last. -/
theorem c6_prompt_argument_order (dumps : List (String × String) → Option String)
    (tokS tokF : String → Option (List String)) (r : PromptRequest)
    (s : String) (ts : List String)
    (hex : r.extra_args = some s) (hs : s ≠ "")
    (hok : tokS s = some ts) (hfail : tokF s = none) :
    execute_prompt_cmd dumps tokS r =
      ["llm", "prompt"] ++ flagTokens "-m" r.model ++ flagTokens "-s" r.system
        ++ flagTokens "-t" r.template ++ eachTokens (fun t => ["-T", t]) r.tools
        ++ optionTokens r.options ++ reasoningTokens dumps r.reasoning
        ++ eachTokens (fun p => ["-a", p]) r.attachments
        ++ eachTokens (fun pm => ["--at", pm.1, pm.2]) r.attachment_types
        ++ ts ++ [r.prompt] ∧
    execute_prompt_cmd dumps tokF r =
      ["llm", "prompt"] ++ flagTokens "-m" r.model ++ flagTokens "-s" r.system
        ++ flagTokens "-t" r.template ++ eachTokens (fun t => ["-T", t]) r.tools
        ++ optionTokens r.options ++ reasoningTokens dumps r.reasoning
        ++ eachTokens (fun p => ["-a", p]) r.attachments
        ++ eachTokens (fun pm => ["--at", pm.1, pm.2]) r.attachment_types
        ++ [r.prompt] ∧
    (execute_prompt_cmd dumps tokS r).getLast? = some r.prompt ∧
    (execute_prompt_cmd dumps tokF r).getLast? = some r.prompt := by
  have hts : extraTokens tokS r.extra_args = ts := by
    rw [hex]
    simp [extraTokens, hs, hok]
  have htf : extraTokens tokF r.extra_args = [] := by
    rw [hex]
    simp [extraTokens, hs, hfail]
  have h1 := execute_prompt_cmd_decomp dumps tokS r
  have h2 := execute_prompt_cmd_decomp dumps tokF r
  rw [hts] at h1
  rw [htf, List.append_nil] at h2
  refine ⟨h1, h2, ?_, ?_⟩
  · rw [h1]
    exact List.getLast?_concat _
  · rw [h2]
    exact List.getLast?_concat _

/-- Witness for C6 at a concrete request with attachments, typed
attachments, an option and extra flags, under a succeeding and a failing
tokenizer. -/
theorem c6_prompt_argument_order_witness :
    execute_prompt_cmd (fun _ => none) (fun _ => some ["--raw", "-x"])
        ⟨"hello", some "m", none, some ["f1", "f2"], some [("f3", "image/png")],
          none, some [("temperature", "0.7")], none, true, none, some "--raw -x"⟩ =
      ["llm", "prompt", "-m", "m", "-o", "temperature", "0.7", "-a", "f1",
        "-a", "f2", "--at", "f3", "image/png", "--raw", "-x", "hello"] ∧
    execute_prompt_cmd (fun _ => none) (fun _ => none)
        ⟨"hello", some "m", none, some ["f1", "f2"], some [("f3", "image/png")],
          none, some [("temperature", "0.7")], none, true, none, some "--raw -x"⟩ =
      ["llm", "prompt", "-m", "m", "-o", "temperature", "0.7", "-a", "f1",
        "-a", "f2", "--at", "f3", "image/png", "hello"] ∧
    (execute_prompt_cmd (fun _ => none) (fun _ => some ["--raw", "-x"])
        ⟨"hello", some "m", none, some ["f1", "f2"], some [("f3", "image/png")],
          none, some [("temperature", "0.7")], none, true, none, some "--raw -x"⟩).getLast? =
      some "hello" ∧
    (execute_prompt_cmd (fun _ => none) (fun _ => none)
        ⟨"hello", some "m", none, some ["f1", "f2"], some [("f3", "image/png")],
          none, some [("temperature", "0.7")], none, true, none, some "--raw -x"⟩).getLast? =
      some "hello" :=
  c6_prompt_argument_order (fun _ => none) (fun _ => some ["--raw", "-x"])
    (fun _ => none)
    ⟨"hello", some "m", none, some ["f1", "f2"], some [("f3", "image/png")],
      none, some [("temperature", "0.7")], none, true, none, some "--raw -x"⟩
    "--raw -x" ["--raw", "-x"] rfl (by decide) rfl rfl

/-- C7: each option entry is emitted as the two-token `-o key value` form:
for a request carrying an option mapping, the built vector contains exactly
one consecutive `-o key value` triple per entry (for both the prompt and the
chat builder), and no single `key=value` token ever appears (keys and values
that do not themselves contain `=` or collide with `-o`). -/
theorem c7_options_two_token_form (dumps : List (String × String) → Option String)
    (tok : String → Option (List String)) (kvs : List (String × String))
    (p ms : String)
    (hnd : (kvs.map Prod.fst).Nodup)
    (hk : ∀ kv ∈ kvs, kv.1 ≠ "-o") (hv : ∀ kv ∈ kvs, kv.2 ≠ "-o")
    (hkeq : ∀ kv ∈ kvs, '=' ∉ kv.1.data) (hveq : ∀ kv ∈ kvs, '=' ∉ kv.2.data)
    (hpeq : '=' ∉ p.data) :
    optionTokens (some kvs) = kvs.flatMap (fun kv => ["-o", kv.1, kv.2]) ∧
    (∀ k v, (k, v) ∈ kvs →
      tripleCount k v (execute_prompt_cmd dumps tok
        ⟨p, none, none, none, none, none, some kvs, none, true, none, none⟩) = 1) ∧
    (∀ k v, (k, v) ∈ kvs →
      tripleCount k v (chat_message_cmd dumps tok
        ⟨ms, none, none, none, none, some kvs, none, none⟩) = 1) ∧
    (∀ k v, (k, v) ∈ kvs →
      (k ++ "=" ++ v) ∉ execute_prompt_cmd dumps tok
        ⟨p, none, none, none, none, none, some kvs, none, true, none, none⟩) ∧
    (∀ k v, (k, v) ∈ kvs →
      (k ++ "=" ++ v) ∉ chat_message_cmd dumps tok
        ⟨ms, none, none, none, none, some kvs, none, none⟩) := by
  have hcmd : execute_prompt_cmd dumps tok
      ⟨p, none, none, none, none, none, some kvs, none, true, none, none⟩ =
        "llm" :: "prompt" :: (kvs.flatMap (fun kv => ["-o", kv.1, kv.2]) ++ [p]) := by
    rw [execute_prompt_cmd_decomp]
    simp [flagTokens, eachTokens, optionTokens, reasoningTokens, extraTokens]
  have hchat : chat_message_cmd dumps tok
      ⟨ms, none, none, none, none, some kvs, none, none⟩ =
        "llm" :: "chat" :: kvs.flatMap (fun kv => ["-o", kv.1, kv.2]) := by
    rw [chat_message_cmd_decomp]
    simp [flagTokens, eachTokens, optionTokens, reasoningTokens, extraTokens]
  have hone : ∀ k v, (k, v) ∈ kvs → pairCount k v kvs = 1 := fun k v hkv =>
    pairCount_eq_one_of_mem k v kvs hnd hkv
  refine ⟨rfl, ?_, ?_, ?_, ?_⟩
  · intro k v hkv
    rw [hcmd, tripleCount_skip _ _ _ _ (by decide), tripleCount_skip _ _ _ _ (by decide),
      tripleCount_triples k v kvs [p] hk hv, hone k v hkv]
    rfl
  · intro k v hkv
    have h2 := tripleCount_triples k v kvs [] hk hv
    rw [List.append_nil] at h2
    rw [hchat, tripleCount_skip _ _ _ _ (by decide), tripleCount_skip _ _ _ _ (by decide),
      h2, hone k v hkv]
    rfl
  · intro k v hkv hmem
    rw [hcmd] at hmem
    simp only [List.mem_cons, List.mem_append, List.mem_flatMap,
      List.mem_singleton, List.not_mem_nil, or_false] at hmem
    rcases hmem with h | h | h
    · exact ne_of_no_eq_char k v "llm" (by decide) h
    · exact ne_of_no_eq_char k v "prompt" (by decide) h
    · rcases h with h | h
      · obtain ⟨kv, hkv2, hin⟩ := h
        rcases hin with h | h | h
        · exact ne_of_no_eq_char k v "-o" (by decide) h
        · exact ne_of_no_eq_char k v kv.1 (hkeq kv hkv2) h
        · exact ne_of_no_eq_char k v kv.2 (hveq kv hkv2) h
      · exact ne_of_no_eq_char k v p hpeq h
  · intro k v hkv hmem
    rw [hchat] at hmem
    simp only [List.mem_cons, List.mem_flatMap, List.mem_singleton,
      List.not_mem_nil, or_false] at hmem
    rcases hmem with h | h | h
    · exact ne_of_no_eq_char k v "llm" (by decide) h
    · exact ne_of_no_eq_char k v "chat" (by decide) h
    · obtain ⟨kv, hkv2, hin⟩ := h
      rcases hin with h | h | h
      · exact ne_of_no_eq_char k v "-o" (by decide) h
      · exact ne_of_no_eq_char k v kv.1 (hkeq kv hkv2) h
      · exact ne_of_no_eq_char k v kv.2 (hveq kv hkv2) h

/-- Witness for C7 at a concrete two-entry option mapping. -/
theorem c7_options_two_token_form_witness :
    tripleCount "temperature" "0.7" (execute_prompt_cmd (fun _ => none) (fun _ => none)
      ⟨"hi", none, none, none, none, none,
        some [("temperature", "0.7"), ("top_p", "0.9")], none, true, none, none⟩) = 1 ∧
    tripleCount "top_p" "0.9" (execute_prompt_cmd (fun _ => none) (fun _ => none)
      ⟨"hi", none, none, none, none, none,
        some [("temperature", "0.7"), ("top_p", "0.9")], none, true, none, none⟩) = 1 ∧
    tripleCount "temperature" "0.7" (chat_message_cmd (fun _ => none) (fun _ => none)
      ⟨"yo", none, none, none, none,
        some [("temperature", "0.7"), ("top_p", "0.9")], none, none⟩) = 1 ∧
    ("temperature" ++ "=" ++ "0.7") ∉ execute_prompt_cmd (fun _ => none) (fun _ => none)
      ⟨"hi", none, none, none, none, none,
        some [("temperature", "0.7"), ("top_p", "0.9")], none, true, none, none⟩ ∧
    ("temperature" ++ "=" ++ "0.7") ∉ chat_message_cmd (fun _ => none) (fun _ => none)
      ⟨"yo", none, none, none, none,
        some [("temperature", "0.7"), ("top_p", "0.9")], none, none⟩ := by
  have h := c7_options_two_token_form (fun _ => none) (fun _ => none)
    [("temperature", "0.7"), ("top_p", "0.9")] "hi" "yo"
    (by decide) (by decide) (by decide) (by decide) (by decide) (by decide)
  exact ⟨h.2.1 "temperature" "0.7" (by decide), h.2.1 "top_p" "0.9" (by decide),
    h.2.2.1 "temperature" "0.7" (by decide), h.2.2.2.1 "temperature" "0.7" (by decide),
    h.2.2.2.2 "temperature" "0.7" (by decide)⟩

/-- C8: a truthy reasoning mapping is emitted as the single triple
`-o reasoning <json>` when JSON encoding succeeds; when encoding raises, the
builder falls back to emitting each entry through the generic `-o key value`
mechanism, and the argument vector is still fully built in order. -/
theorem c8_reasoning_json_or_fallback
    (dumpsOk dumpsF : List (String × String) → Option String)
    (tok : String → Option (List String)) (r : PromptRequest) (m : ChatMessage)
    (rm : List (String × String)) (js : String)
    (hne : rm ≠ []) (hok : dumpsOk rm = some js) (hf : dumpsF rm = none) :
    reasoningTokens dumpsOk (some rm) = ["-o", "reasoning", js] ∧
    reasoningTokens dumpsF (some rm) = rm.flatMap (fun kv => ["-o", kv.1, kv.2]) ∧
    execute_prompt_cmd dumpsF tok r =
      ["llm", "prompt"] ++ flagTokens "-m" r.model ++ flagTokens "-s" r.system
        ++ flagTokens "-t" r.template ++ eachTokens (fun t => ["-T", t]) r.tools
        ++ optionTokens r.options ++ reasoningTokens dumpsF r.reasoning
        ++ eachTokens (fun p => ["-a", p]) r.attachments
        ++ eachTokens (fun pm => ["--at", pm.1, pm.2]) r.attachment_types
        ++ extraTokens tok r.extra_args ++ [r.prompt] ∧
    chat_message_cmd dumpsF tok m =
      ["llm", "chat"] ++ flagTokens "-m" m.model ++ flagTokens "--cid" m.conversation_id
        ++ flagTokens "-s" m.system ++ eachTokens (fun t => ["-T", t]) m.tools
        ++ optionTokens m.options ++ reasoningTokens dumpsF m.reasoning
        ++ extraTokens tok m.extra_args := by
  refine ⟨?_, ?_, execute_prompt_cmd_decomp dumpsF tok r, chat_message_cmd_decomp dumpsF tok m⟩
  · simp [reasoningTokens, hne, hok]
  · simp [reasoningTokens, optionTokens, hne, hf]

/-- Witness for C8 at a concrete reasoning mapping, with an encoder that
succeeds and one that raises. -/
theorem c8_reasoning_json_or_fallback_witness :
    reasoningTokens (fun _ => some "J") (some [("effort", "high")]) =
      ["-o", "reasoning", "J"] ∧
    reasoningTokens (fun _ => none) (some [("effort", "high")]) =
      ["-o", "effort", "high"] ∧
    execute_prompt_cmd (fun _ => none) (fun _ => none)
        ⟨"hi", none, none, none, none, none, none, none, true,
          some [("effort", "high")], none⟩ =
      ["llm", "prompt", "-o", "effort", "high", "hi"] ∧
    chat_message_cmd (fun _ => none) (fun _ => none)
        ⟨"yo", none, none, none, none, none, some [("effort", "high")], none⟩ =
      ["llm", "chat", "-o", "effort", "high"] :=
  c8_reasoning_json_or_fallback (fun _ => some "J") (fun _ => none) (fun _ => none)
    ⟨"hi", none, none, none, none, none, none, none, true,
      some [("effort", "high")], none⟩
    ⟨"yo", none, none, none, none, none, some [("effort", "high")], none⟩
    [("effort", "high")] "J" (by decide) rfl rfl

theorem charListLt_irrefl (a : List Char) : charListLt a a = false := by
  induction a with
  | nil => rfl
  | cons x xs ih => simp [charListLt, lt_irrefl, ih]

theorem charListLt_asymm (a b : List Char) (h : charListLt a b = true) :
    charListLt b a = false := by
  induction a generalizing b with
  | nil =>
    cases b with
    | nil => simp [charListLt] at h
    | cons y ys => simp [charListLt]
  | cons x xs ih =>
    cases b with
    | nil => simp [charListLt] at h
    | cons y ys =>
      by_cases hxy : x < y
      · simp [charListLt, hxy, lt_asymm hxy]
      · by_cases hyx : y < x
        · simp [charListLt, hxy, hyx] at h
        · have hx : charListLt xs ys = true := by
            simpa [charListLt, hxy, hyx] using h
          simp [charListLt, hxy, hyx, ih ys hx]

theorem charListLt_trans (a b c : List Char) (h1 : charListLt a b = true)
    (h2 : charListLt b c = true) : charListLt a c = true := by
  induction a generalizing b c with
  | nil =>
    cases b with
    | nil => simp [charListLt] at h1
    | cons y ys =>
      cases c with
      | nil => simp [charListLt] at h2
      | cons z zs => simp [charListLt]
  | cons x xs ih =>
    cases b with
    | nil => simp [charListLt] at h1
    | cons y ys =>
      cases c with
      | nil => simp [charListLt] at h2
      | cons z zs =>
        by_cases hxy : x < y
        · by_cases hyz : y < z
          · simp [charListLt, lt_trans hxy hyz]
          · by_cases hzy : z < y
            · simp [charListLt, hyz, hzy] at h2
            · have hyzeq : y = z := le_antisymm (not_lt.mp hzy) (not_lt.mp hyz)
              subst hyzeq
              simp [charListLt, hxy]
        · by_cases hyx : y < x
          · simp [charListLt, hxy, hyx] at h1
          · have hxyeq : x = y := le_antisymm (not_lt.mp hyx) (not_lt.mp hxy)
            subst hxyeq
            have h1t : charListLt xs ys = true := by
              simpa [charListLt, lt_irrefl] using h1
            by_cases hyz : x < z
            · simp [charListLt, hyz]
            · by_cases hzy : z < x
              · simp [charListLt, hyz, hzy] at h2
              · have h2t : charListLt ys zs = true := by
                  simpa [charListLt, hyz, hzy] using h2
                simp [charListLt, hyz, hzy, ih ys zs h1t h2t]

theorem charListLt_connex (a b : List Char) (h1 : charListLt a b = false)
    (h2 : charListLt b a = false) : a = b := by
  induction a generalizing b with
  | nil =>
    cases b with
    | nil => rfl
    | cons y ys => simp [charListLt] at h1
  | cons x xs ih =>
    cases b with
    | nil => simp [charListLt] at h2
    | cons y ys =>
      by_cases hxy : x < y
      · simp [charListLt, hxy] at h1
      · by_cases hyx : y < x
        · simp [charListLt, hyx] at h2
        · have hxyeq : x = y := le_antisymm (not_lt.mp hyx) (not_lt.mp hxy)
          subst hxyeq
          have e1 : charListLt xs ys = false := by
            simpa [charListLt, lt_irrefl] using h1
          have e2 : charListLt ys xs = false := by
            simpa [charListLt, lt_irrefl] using h2
          rw [ih ys e1 e2]

theorem charListLt_le_trans (a b c : List Char) (h1 : charListLt a b = false)
    (h2 : charListLt b c = false) : charListLt a c = false := by
  cases hac : charListLt a c with
  | false => rfl
  | true =>
    cases hba : charListLt b a with
    | true =>
      have : charListLt b c = true := charListLt_trans b a c hba hac
      rw [h2] at this
      cases this
    | false =>
      have hab : a = b := charListLt_connex a b h1 hba
      rw [hab, h2] at hac
      cases hac

theorem pyStrLe_refl (a : String) : pyStrLe a a = true := by
  simp [pyStrLe, pyStrLt, charListLt_irrefl]

theorem pyStrLe_trans (a b c : String) (h1 : pyStrLe a b = true)
    (h2 : pyStrLe b c = true) : pyStrLe a c = true := by
  simp only [pyStrLe, pyStrLt, Bool.not_eq_true'] at h1 h2 ⊢
  exact charListLt_le_trans c.data b.data a.data h2 h1

theorem pyStrLe_of_lt (a b : String) (h : pyStrLt a b = true) :
    pyStrLe a b = true := by
  simp only [pyStrLe, pyStrLt, Bool.not_eq_true'] at h ⊢
  exact charListLt_asymm a.data b.data h

theorem pyStrLe_of_not_lt (a b : String) (h : pyStrLt b a = false) :
    pyStrLe a b = true := by
  simp [pyStrLe, h]

theorem pyStrLe_total (a b : String) :
    (pyStrLe a b || pyStrLe b a) = true := by
  simp only [pyStrLe, pyStrLt, Bool.or_eq_true, Bool.not_eq_true']
  cases h : charListLt b.data a.data with
  | false => exact Or.inl rfl
  | true => exact Or.inr (charListLt_asymm b.data a.data h)

theorem applyRow_conversation_id (c : ConvSummary) (r : LogRow) :
    (applyRow c r).conversation_id = c.conversation_id := by
  unfold applyRow
  cases r.datetime_utc with
  | none => rfl
  | some dt =>
    by_cases h : dt = ""
    · simp [h]
    · by_cases h2 : ((!pyTruthy c.latest) || pyStrLt (c.latest.getD "") dt) = true <;>
        simp [h, h2]

theorem applyRow_count (c : ConvSummary) (r : LogRow) :
    (applyRow c r).count = c.count + 1 := by
  unfold applyRow
  cases r.datetime_utc with
  | none => rfl
  | some dt =>
    by_cases h : dt = ""
    · simp [h]
    · by_cases h2 : ((!pyTruthy c.latest) || pyStrLt (c.latest.getD "") dt) = true <;>
        simp [h, h2]

theorem foldl_applyRow_count (g : List LogRow) (c : ConvSummary) :
    (g.foldl applyRow c).count = c.count + g.length := by
  induction g generalizing c with
  | nil => simp
  | cons r g ih =>
    rw [List.foldl_cons, ih, applyRow_count]
    simp
    omega

theorem foldl_applyRow_conversation_id (g : List LogRow) (c : ConvSummary) :
    (g.foldl applyRow c).conversation_id = c.conversation_id := by
  induction g generalizing c with
  | nil => rfl
  | cons r g ih =>
    rw [List.foldl_cons, ih, applyRow_conversation_id]

theorem applyRow_update (c : ConvSummary) (r : LogRow) (dt : String)
    (hdt : r.datetime_utc = some dt) (hdt0 : dt ≠ "")
    (hcond : ((!pyTruthy c.latest) || pyStrLt (c.latest.getD "") dt) = true) :
    applyRow c r =
      { conversation_id := c.conversation_id, latest := some dt,
        model := r.model, count := c.count + 1,
        last_prompt := r.prompt.getD "" } := by
  unfold applyRow
  rw [hdt]
  simp [hdt0, hcond]

theorem applyRow_keep (c : ConvSummary) (r : LogRow) (dt : String)
    (hdt : r.datetime_utc = some dt) (hdt0 : dt ≠ "")
    (hcond : ((!pyTruthy c.latest) || pyStrLt (c.latest.getD "") dt) = false) :
    applyRow c r = { c with count := c.count + 1 } := by
  unfold applyRow
  rw [hdt]
  simp [hdt0, hcond]

theorem foldl_applyRow_latest (g : List LogRow) (c : ConvSummary) (s0 : String)
    (hg : ∀ r ∈ g, ∃ s, r.datetime_utc = some s ∧ s ≠ "")
    (hc : c.latest = some s0) (hs0 : s0 ≠ "") :
    (∃ s, (g.foldl applyRow c).latest = some s ∧ s ≠ "" ∧
      pyStrLe s0 s = true ∧
      ∀ r ∈ g, pyStrLe (r.datetime_utc.getD "") s = true) ∧
    (((g.foldl applyRow c).latest = c.latest ∧
      (g.foldl applyRow c).last_prompt = c.last_prompt ∧
      (g.foldl applyRow c).model = c.model) ∨
     (∃ r ∈ g, r.datetime_utc = (g.foldl applyRow c).latest ∧
       (g.foldl applyRow c).last_prompt = r.prompt.getD "" ∧
       (g.foldl applyRow c).model = r.model)) := by
  induction g generalizing c s0 with
  | nil =>
    exact ⟨⟨s0, hc, hs0, pyStrLe_refl s0, by simp⟩, Or.inl ⟨rfl, rfl, rfl⟩⟩
  | cons r g ih =>
    obtain ⟨dt, hdtr, hdt0⟩ := hg r (by simp)
    have hgr : ∀ r' ∈ g, ∃ s, r'.datetime_utc = some s ∧ s ≠ "" :=
      fun r' h => hg r' (by simp [h])
    have htr : pyTruthy c.latest = true := by simp [hc, pyTruthy, hs0]
    rw [List.foldl_cons]
    by_cases hlt : pyStrLt s0 dt = true
    · have hcond : ((!pyTruthy c.latest) || pyStrLt (c.latest.getD "") dt) = true := by
        rw [htr, hc]
        simpa using hlt
      have hup := applyRow_update c r dt hdtr hdt0 hcond
      have hlat' : (applyRow c r).latest = some dt := by rw [hup]
      obtain ⟨⟨s, hs, hsne, hles, hall⟩, hsrc⟩ := ih (applyRow c r) dt hgr hlat' hdt0
      refine ⟨⟨s, hs, hsne, ?_, ?_⟩, ?_⟩
      · exact pyStrLe_trans s0 dt s (pyStrLe_of_lt s0 dt hlt) hles
      · intro r' hr'
        rcases List.mem_cons.mp hr' with h | h
        · subst h
          rw [hdtr]
          simpa using hles
        · exact hall r' h
      · rcases hsrc with ⟨h1, h2, h3⟩ | ⟨r', hr', h1, h2, h3⟩
        · refine Or.inr ⟨r, by simp, ?_, ?_, ?_⟩
          · rw [hdtr, h1, hlat']
          · rw [h2, hup]
          · rw [h3, hup]
        · exact Or.inr ⟨r', by simp [hr'], h1, h2, h3⟩
    · have hltf : pyStrLt s0 dt = false := by
        rwa [Bool.not_eq_true] at hlt
      have hcond : ((!pyTruthy c.latest) || pyStrLt (c.latest.getD "") dt) = false := by
        rw [htr, hc]
        simpa using hltf
      have hkp := applyRow_keep c r dt hdtr hdt0 hcond
      have hlat' : (applyRow c r).latest = some s0 := by
        rw [hkp]
        exact hc
      obtain ⟨⟨s, hs, hsne, hles, hall⟩, hsrc⟩ := ih (applyRow c r) s0 hgr hlat' hs0
      refine ⟨⟨s, hs, hsne, hles, ?_⟩, ?_⟩
      · intro r' hr'
        rcases List.mem_cons.mp hr' with h | h
        · subst h
          rw [hdtr]
          simpa using pyStrLe_trans dt s0 s (pyStrLe_of_not_lt dt s0 hltf) hles
        · exact hall r' h
      · rcases hsrc with ⟨h1, h2, h3⟩ | ⟨r', hr', h1, h2, h3⟩
        · refine Or.inl ⟨?_, ?_, ?_⟩
          · rw [h1, hkp]
          · rw [h2, hkp]
          · rw [h3, hkp]
        · exact Or.inr ⟨r', by simp [hr'], h1, h2, h3⟩

theorem lookupConv_map_self (l : List ConvSummary) (cid : String) (r : LogRow) :
    lookupConv cid (l.map (fun c => if c.conversation_id = cid then applyRow c r else c)) =
      (lookupConv cid l).map (fun c => applyRow c r) := by
  induction l with
  | nil => rfl
  | cons d rest ih =>
    rw [List.map_cons]
    by_cases hd : d.conversation_id = cid
    · rw [if_pos hd]
      unfold lookupConv
      rw [List.find?_cons_of_pos _ (by simp [applyRow_conversation_id, hd]),
        List.find?_cons_of_pos _ (by simp [hd])]
      rfl
    · rw [if_neg hd]
      unfold lookupConv
      rw [List.find?_cons_of_neg _ (by simp [hd]), List.find?_cons_of_neg _ (by simp [hd])]
      exact ih

theorem lookupConv_map_other (l : List ConvSummary) (cid cid' : String) (r : LogRow)
    (hne : cid ≠ cid') :
    lookupConv cid (l.map (fun c => if c.conversation_id = cid' then applyRow c r else c)) =
      lookupConv cid l := by
  induction l with
  | nil => rfl
  | cons d rest ih =>
    rw [List.map_cons]
    by_cases hd : d.conversation_id = cid'
    · rw [if_pos hd]
      unfold lookupConv
      rw [List.find?_cons_of_neg _
          (by simp [applyRow_conversation_id, hd]; exact fun h => hne h.symm),
        List.find?_cons_of_neg _ (by simp [hd]; exact fun h => hne h.symm)]
      exact ih
    · rw [if_neg hd]
      by_cases hdc : d.conversation_id = cid
      · unfold lookupConv
        rw [List.find?_cons_of_pos _ (by simp [hdc]),
          List.find?_cons_of_pos _ (by simp [hdc])]
      · unfold lookupConv
        rw [List.find?_cons_of_neg _ (by simp [hdc]),
          List.find?_cons_of_neg _ (by simp [hdc])]
        exact ih

theorem lookupConv_append_single (l : List ConvSummary) (c : ConvSummary)
    (cid : String) :
    lookupConv cid (l ++ [c]) =
      match lookupConv cid l with
      | some d => some d
      | none => if c.conversation_id = cid then some c else none := by
  unfold lookupConv
  rw [List.find?_append]
  cases h : List.find? (fun d => d.conversation_id == cid) l with
  | some d => rfl
  | none =>
    by_cases hc : c.conversation_id = cid
    · rw [List.find?_cons_of_pos _ (by simp [hc])]
      simp [hc, Option.or]
    · rw [List.find?_cons_of_neg _ (by simp [hc])]
      simp [hc, Option.or]

theorem any_key_iff (convs : List ConvSummary) (cid : String) :
    (convs.any (fun c => c.conversation_id = cid)) = true ↔
      (lookupConv cid convs).isSome = true := by
  unfold lookupConv
  rw [List.any_eq_true, List.find?_isSome]
  simp

theorem lookup_foldl_insertRow (rows : List LogRow) (acc : List ConvSummary)
    (cid : String) (hcid : cid ≠ "") :
    lookupConv cid (rows.foldl insertRow acc) =
      match lookupConv cid acc with
      | some c => some ((rowsFor cid rows).foldl applyRow c)
      | none =>
        match rowsFor cid rows with
        | [] => none
        | r0 :: g => some ((r0 :: g).foldl applyRow (initConv cid r0)) := by
  induction rows generalizing acc with
  | nil =>
    cases h : lookupConv cid acc <;> simp [rowsFor, h]
  | cons r rows ih =>
    rw [List.foldl_cons]
    cases hr : r.conversation_id with
    | none =>
      have hacc : insertRow acc r = acc := by simp [insertRow, hr]
      have hpred : (r.conversation_id == some cid) = false := by rw [hr]; rfl
      have hflt : rowsFor cid (r :: rows) = rowsFor cid rows := by
        simp [rowsFor, List.filter_cons, hpred]
      rw [hacc, hflt]
      exact ih acc
    | some cid2 =>
      by_cases hc2 : cid2 = ""
      · have hacc : insertRow acc r = acc := by simp [insertRow, hr, hc2]
        have hpred : (r.conversation_id == some cid) = false := by
          rw [hr]
          simp [hc2]
          exact fun h => hcid h.symm
        have hflt : rowsFor cid (r :: rows) = rowsFor cid rows := by
          simp [rowsFor, List.filter_cons, hpred]
        rw [hacc, hflt]
        exact ih acc
      · by_cases hne : cid2 = cid
        · subst hne
          have hflt : rowsFor cid2 (r :: rows) = r :: rowsFor cid2 rows := by
            simp [rowsFor, List.filter_cons, hr]
          rw [hflt]
          by_cases hany : (acc.any (fun c => c.conversation_id = cid2)) = true
          · obtain ⟨c0, hc0⟩ : ∃ c0, lookupConv cid2 acc = some c0 := by
              have := (any_key_iff acc cid2).mp hany
              cases h : lookupConv cid2 acc with
              | none => rw [h] at this; cases this
              | some c0 => exact ⟨c0, rfl⟩
            have hacc : insertRow acc r =
                acc.map (fun c => if c.conversation_id = cid2 then applyRow c r else c) := by
              simp [insertRow, hr, hc2, hany]
            rw [hacc, ih]
            rw [lookupConv_map_self, hc0]
            simp [List.foldl_cons]
          · obtain hnone : lookupConv cid2 acc = none := by
              cases h : lookupConv cid2 acc with
              | none => rfl
              | some c0 =>
                exfalso
                exact hany ((any_key_iff acc cid2).mpr (by rw [h]; rfl))
            have hacc : insertRow acc r = acc ++ [applyRow (initConv cid2 r) r] := by
              simp [insertRow, hr, hc2, hany]
            rw [hacc, ih]
            rw [lookupConv_append_single, hnone]
            have hkey : (applyRow (initConv cid2 r) r).conversation_id = cid2 := by
              rw [applyRow_conversation_id]
              rfl
            rw [if_pos hkey]
            simp [List.foldl_cons]
        · have hflt : rowsFor cid (r :: rows) = rowsFor cid rows := by
            have hpred : (r.conversation_id == some cid) = false := by
              rw [hr]
              simp
              exact fun h => hne h
            simp [rowsFor, List.filter_cons, hpred]
          have hlk : lookupConv cid (insertRow acc r) = lookupConv cid acc := by
            by_cases hany : (acc.any (fun c => c.conversation_id = cid2)) = true
            · have hacc : insertRow acc r =
                  acc.map (fun c => if c.conversation_id = cid2 then applyRow c r else c) := by
                simp [insertRow, hr, hc2, hany]
              rw [hacc, lookupConv_map_other _ _ _ _ (fun h => hne h.symm)]
            · have hacc : insertRow acc r = acc ++ [applyRow (initConv cid2 r) r] := by
                simp [insertRow, hr, hc2, hany]
              rw [hacc, lookupConv_append_single]
              have hkey : (applyRow (initConv cid2 r) r).conversation_id = cid2 := by
                rw [applyRow_conversation_id]
                rfl
              cases h : lookupConv cid acc with
              | some d => rfl
              | none =>
                rw [if_neg (by rw [hkey]; exact hne)]
          rw [hflt, ih, hlk]

theorem convKeys_insertRow_none (convs : List ConvSummary) (r : LogRow)
    (hr : r.conversation_id = none) :
    convKeys (insertRow convs r) = convKeys convs := by
  simp [insertRow, hr]

theorem convKeys_insertRow_empty (convs : List ConvSummary) (r : LogRow)
    (cid : String) (hr : r.conversation_id = some cid) (hc : cid = "") :
    convKeys (insertRow convs r) = convKeys convs := by
  simp [insertRow, hr, hc]

theorem convKeys_insertRow_mem (convs : List ConvSummary) (r : LogRow)
    (cid : String) (hr : r.conversation_id = some cid) (hc : cid ≠ "")
    (hm : cid ∈ convKeys convs) :
    convKeys (insertRow convs r) = convKeys convs := by
  have hany : (convs.any (fun c => c.conversation_id = cid)) = true := by
    rw [List.any_eq_true]
    obtain ⟨c, hcm, hcc⟩ := List.mem_map.mp hm
    exact ⟨c, hcm, by simp [hcc]⟩
  have hins : insertRow convs r =
      convs.map (fun c => if c.conversation_id = cid then applyRow c r else c) := by
    simp [insertRow, hr, hc, hany]
  rw [hins]
  unfold convKeys
  rw [List.map_map]
  apply List.map_congr_left
  intro c hcm
  by_cases hcc : c.conversation_id = cid
  · simp [hcc, applyRow_conversation_id]
  · simp [hcc]

theorem convKeys_insertRow_new (convs : List ConvSummary) (r : LogRow)
    (cid : String) (hr : r.conversation_id = some cid) (hc : cid ≠ "")
    (hnm : cid ∉ convKeys convs) :
    convKeys (insertRow convs r) = convKeys convs ++ [cid] := by
  have hany : (convs.any (fun c => c.conversation_id = cid)) = false := by
    rw [Bool.eq_false_iff]
    intro hx
    apply hnm
    rw [List.any_eq_true] at hx
    obtain ⟨c, hcm, hcc⟩ := hx
    simp only [decide_eq_true_eq] at hcc
    exact hcc ▸ List.mem_map.mpr ⟨c, hcm, rfl⟩
  have hins : insertRow convs r = convs ++ [applyRow (initConv cid r) r] := by
    simp [insertRow, hr, hc, hany]
  rw [hins]
  simp [convKeys, applyRow_conversation_id, initConv]

theorem mem_convKeys_foldl (rows : List LogRow) (acc : List ConvSummary) (x : String) :
    x ∈ convKeys (rows.foldl insertRow acc) ↔
      x ∈ convKeys acc ∨ x ∈ truthyCids rows := by
  induction rows generalizing acc with
  | nil => simp [truthyCids]
  | cons r rows ih =>
    rw [List.foldl_cons, ih]
    cases hr : r.conversation_id with
    | none =>
      rw [convKeys_insertRow_none acc r hr]
      simp [truthyCids, List.filterMap_cons, hr]
    | some cid =>
      by_cases hc : cid = ""
      · rw [convKeys_insertRow_empty acc r cid hr hc]
        simp [truthyCids, List.filterMap_cons, hr, hc]
      · have htc : truthyCids (r :: rows) = cid :: truthyCids rows := by
          simp [truthyCids, List.filterMap_cons, hr, hc]
        rw [htc]
        by_cases hmem : cid ∈ convKeys acc
        · rw [convKeys_insertRow_mem acc r cid hr hc hmem]
          rw [List.mem_cons]
          constructor
          · intro h
            rcases h with h | h
            · exact Or.inl h
            · exact Or.inr (Or.inr h)
          · intro h
            rcases h with h | h | h
            · exact Or.inl h
            · exact Or.inl (h ▸ hmem)
            · exact Or.inr h
        · rw [convKeys_insertRow_new acc r cid hr hc hmem]
          rw [List.mem_append, List.mem_singleton, List.mem_cons]
          tauto

theorem nodup_convKeys_foldl (rows : List LogRow) (acc : List ConvSummary)
    (h : (convKeys acc).Nodup) :
    (convKeys (rows.foldl insertRow acc)).Nodup := by
  induction rows generalizing acc with
  | nil => exact h
  | cons r rows ih =>
    rw [List.foldl_cons]
    apply ih
    cases hr : r.conversation_id with
    | none =>
      rw [convKeys_insertRow_none acc r hr]
      exact h
    | some cid =>
      by_cases hc : cid = ""
      · rw [convKeys_insertRow_empty acc r cid hr hc]
        exact h
      · by_cases hm : cid ∈ convKeys acc
        · rw [convKeys_insertRow_mem acc r cid hr hc hm]
          exact h
        · rw [convKeys_insertRow_new acc r cid hr hc hm]
          simp [List.nodup_append, h, hm]

theorem lookupConv_of_mem (l : List ConvSummary) (c : ConvSummary)
    (hnd : (convKeys l).Nodup) (hm : c ∈ l) :
    lookupConv c.conversation_id l = some c := by
  induction l with
  | nil => cases hm
  | cons d rest ih =>
    simp only [convKeys, List.map_cons] at hnd
    have hk1 : d.conversation_id ∉ rest.map (fun c => c.conversation_id) :=
      (List.nodup_cons.mp hnd).1
    rcases List.mem_cons.mp hm with h | h
    · subst h
      unfold lookupConv
      rw [List.find?_cons_of_pos _ (by simp)]
    · have hne : d.conversation_id ≠ c.conversation_id := by
        intro he
        apply hk1
        rw [he]
        exact List.mem_map.mpr ⟨c, h, rfl⟩
      unfold lookupConv
      rw [List.find?_cons_of_neg _ (by simp [hne])]
      exact ih (List.nodup_cons.mp hnd).2 h

theorem truthyCids_ne_empty (rows : List LogRow) (x : String)
    (h : x ∈ truthyCids rows) : x ≠ "" := by
  rw [truthyCids, List.mem_filterMap] at h
  obtain ⟨r, _, hr⟩ := h
  cases hcr : r.conversation_id with
  | none => rw [hcr] at hr; cases hr
  | some c =>
    rw [hcr] at hr
    by_cases hc : c = ""
    · simp [hc] at hr
    · simp only [if_neg hc, Option.some.injEq] at hr
      exact hr ▸ hc

theorem buildConvs_length (rows : List LogRow) :
    (buildConvs rows).length = (truthyCids rows).dedup.length := by
  have h1 : (buildConvs rows).length = (convKeys (buildConvs rows)).length := by
    simp [convKeys]
  have hnd : (convKeys (buildConvs rows)).Nodup :=
    nodup_convKeys_foldl rows [] (by simp [convKeys])
  have hfin : (convKeys (buildConvs rows)).toFinset = (truthyCids rows).toFinset := by
    ext x
    simp only [List.mem_toFinset]
    have hmem : x ∈ convKeys (buildConvs rows) ↔
        x ∈ convKeys ([] : List ConvSummary) ∨ x ∈ truthyCids rows :=
      mem_convKeys_foldl rows [] x
    rw [hmem]
    simp [convKeys]
  rw [h1, ← List.toFinset_card_of_nodup hnd, hfin, List.card_toFinset]

/-- C2: the aggregation groups log rows by conversation id: every returned
summary's count equals the number of rows with its id, its `latest` is the
lexicographically greatest datetime string among those rows (with that row's
prompt and model reported), and the returned list is sorted descending by
`latest` and truncated to the limit (for rows whose datetimes are present
and non-empty and a non-negative limit). -/
theorem c2_conversation_aggregation (rows : List LogRow) (limit : Int)
    (hlim : 0 ≤ limit)
    (hdt : ∀ r ∈ rows, ∃ s, r.datetime_utc = some s ∧ s ≠ "") :
    (∀ c ∈ list_conversations_agg rows limit,
      c.count = (rowsFor c.conversation_id rows).length ∧
      (∃ s, c.latest = some s ∧
        (∃ r ∈ rows, r.conversation_id = some c.conversation_id ∧
          r.datetime_utc = some s ∧ c.last_prompt = r.prompt.getD "" ∧
          c.model = r.model) ∧
        (∀ r ∈ rows, r.conversation_id = some c.conversation_id →
          pyStrLe (r.datetime_utc.getD "") s = true))) ∧
    (list_conversations_agg rows limit).Pairwise
      (fun a b => pyStrLe (convKey b) (convKey a) = true) ∧
    (list_conversations_agg rows limit).length =
      min limit.toNat (truthyCids rows).dedup.length := by
  have hnd : (convKeys (buildConvs rows)).Nodup :=
    nodup_convKeys_foldl rows [] (by simp [convKeys])
  have hsort_mem : ∀ c, c ∈ list_conversations_agg rows limit → c ∈ buildConvs rows := by
    intro c hc
    unfold list_conversations_agg pySliceTo at hc
    rw [if_neg (not_lt.mpr hlim)] at hc
    have h2 : c ∈ pySortByKeyRev (buildConvs rows) := (List.take_sublist _ _).subset hc
    unfold pySortByKeyRev at h2
    exact List.mem_mergeSort.mp h2
  refine ⟨?_, ?_, ?_⟩
  · intro c hc
    have hcb : c ∈ buildConvs rows := hsort_mem c hc
    have hkey_mem : c.conversation_id ∈ convKeys (buildConvs rows) :=
      List.mem_map.mpr ⟨c, hcb, rfl⟩
    have hkey_tr : c.conversation_id ∈ truthyCids rows := by
      have h3 : c.conversation_id ∈ convKeys ([] : List ConvSummary) ∨
          c.conversation_id ∈ truthyCids rows :=
        (mem_convKeys_foldl rows [] c.conversation_id).mp hkey_mem
      simpa [convKeys] using h3
    have hcne : c.conversation_id ≠ "" := truthyCids_ne_empty rows _ hkey_tr
    have hlk : lookupConv c.conversation_id (buildConvs rows) = some c :=
      lookupConv_of_mem _ c hnd hcb
    have hlk3 : lookupConv c.conversation_id (buildConvs rows) =
        match rowsFor c.conversation_id rows with
        | [] => none
        | r0 :: g => some ((r0 :: g).foldl applyRow (initConv c.conversation_id r0)) :=
      lookup_foldl_insertRow rows [] c.conversation_id hcne
    cases hg : rowsFor c.conversation_id rows with
    | nil =>
      rw [hlk, hg] at hlk3
      cases hlk3
    | cons r0 g =>
      rw [hlk, hg] at hlk3
      have hceq : c = (r0 :: g).foldl applyRow (initConv c.conversation_id r0) :=
        Option.some.inj hlk3
      have hg_rows : ∀ r' ∈ r0 :: g,
          r' ∈ rows ∧ r'.conversation_id = some c.conversation_id := by
        intro r' hr'
        have h4 : r' ∈ rowsFor c.conversation_id rows := hg ▸ hr'
        rw [rowsFor, List.mem_filter] at h4
        exact ⟨h4.1, by simpa using h4.2⟩
      have hg_dt : ∀ r' ∈ r0 :: g, ∃ s, r'.datetime_utc = some s ∧ s ≠ "" :=
        fun r' hr' => hdt r' (hg_rows r' hr').1
      obtain ⟨dt0, hdt0, hdt0ne⟩ := hg_dt r0 (by simp)
      have hinit : (initConv c.conversation_id r0).latest = some dt0 := by
        simp [initConv, hdt0]
      obtain ⟨⟨s, hs, hsne, hle0, hall⟩, hsrc⟩ :=
        foldl_applyRow_latest (r0 :: g) (initConv c.conversation_id r0) dt0
          hg_dt hinit hdt0ne
      refine ⟨?_, s, ?_, ?_, ?_⟩
      · rw [hceq, foldl_applyRow_count]
        simp [initConv]
      · rw [hceq]
        exact hs
      · rcases hsrc with ⟨h1, h2, h3⟩ | ⟨r', hr', h1, h2, h3⟩
        · refine ⟨r0, (hg_rows r0 (by simp)).1, (hg_rows r0 (by simp)).2, ?_, ?_, ?_⟩
          · have h4 : (initConv c.conversation_id r0).latest = some s := by
              rw [← h1]
              exact hs
            rw [hinit] at h4
            rw [hdt0, Option.some.inj h4]
          · rw [hceq, h2]
            simp [initConv]
          · rw [hceq, h3]
            simp [initConv]
        · refine ⟨r', (hg_rows r' hr').1, (hg_rows r' hr').2, ?_, ?_, ?_⟩
          · rw [h1, hs]
          · rw [hceq]
            exact h2
          · rw [hceq]
            exact h3
      · intro r' hr' hcid'
        have hmem' : r' ∈ rowsFor c.conversation_id rows := by
          rw [rowsFor, List.mem_filter]
          exact ⟨hr', by simp [hcid']⟩
        rw [hg] at hmem'
        exact hall r' hmem'
  · have htrans : ∀ a b c : ConvSummary,
        pyStrLe (convKey b) (convKey a) = true →
        pyStrLe (convKey c) (convKey b) = true →
        pyStrLe (convKey c) (convKey a) = true :=
      fun a b c h1 h2 => pyStrLe_trans (convKey c) (convKey b) (convKey a) h2 h1
    have htotal : ∀ a b : ConvSummary,
        (pyStrLe (convKey b) (convKey a) || pyStrLe (convKey a) (convKey b)) = true :=
      fun a b => pyStrLe_total (convKey b) (convKey a)
    have hP := List.sorted_mergeSort htrans htotal (buildConvs rows)
    unfold list_conversations_agg pySliceTo pySortByKeyRev
    rw [if_neg (not_lt.mpr hlim)]
    exact List.Pairwise.sublist (List.take_sublist _ _) hP
  · unfold list_conversations_agg pySliceTo pySortByKeyRev
    rw [if_neg (not_lt.mpr hlim), List.length_take, List.length_mergeSort,
      buildConvs_length]

/-- Witness for C2 at the spec's concrete example rows: two conversations,
"a" with count 2 and latest 2024-01-02, ordered before "b". -/
theorem c2_conversation_aggregation_witness :
    list_conversations_agg
      [⟨some "a", some "2024-01-01", some "m1", some "p1"⟩,
       ⟨some "a", some "2024-01-02", some "m2", some "p2"⟩,
       ⟨some "b", some "2024-01-01", some "m3", some "p3"⟩] 50 =
      [⟨"a", some "2024-01-02", some "m2", 2, "p2"⟩,
       ⟨"b", some "2024-01-01", some "m3", 1, "p3"⟩] ∧
    (list_conversations_agg
      [⟨some "a", some "2024-01-01", some "m1", some "p1"⟩,
       ⟨some "a", some "2024-01-02", some "m2", some "p2"⟩,
       ⟨some "b", some "2024-01-01", some "m3", some "p3"⟩] 50).Pairwise
      (fun a b => pyStrLe (convKey b) (convKey a) = true) ∧
    (list_conversations_agg
      [⟨some "a", some "2024-01-01", some "m1", some "p1"⟩,
       ⟨some "a", some "2024-01-02", some "m2", some "p2"⟩,
       ⟨some "b", some "2024-01-01", some "m3", some "p3"⟩] 50).length =
      min (50 : Int).toNat
        (truthyCids
          [⟨some "a", some "2024-01-01", some "m1", some "p1"⟩,
           ⟨some "a", some "2024-01-02", some "m2", some "p2"⟩,
           ⟨some "b", some "2024-01-01", some "m3", some "p3"⟩]).dedup.length := by
  have hdt : ∀ r ∈ ([⟨some "a", some "2024-01-01", some "m1", some "p1"⟩,
      ⟨some "a", some "2024-01-02", some "m2", some "p2"⟩,
      ⟨some "b", some "2024-01-01", some "m3", some "p3"⟩] : List LogRow),
      ∃ s, r.datetime_utc = some s ∧ s ≠ "" := by
    intro r hr
    simp only [List.mem_cons, List.not_mem_nil, or_false] at hr
    rcases hr with h | h | h <;> subst h <;> exact ⟨_, rfl, by decide⟩
  have h := c2_conversation_aggregation
    [⟨some "a", some "2024-01-01", some "m1", some "p1"⟩,
     ⟨some "a", some "2024-01-02", some "m2", some "p2"⟩,
     ⟨some "b", some "2024-01-01", some "m3", some "p3"⟩] 50 (by decide) hdt
  refine ⟨?_, h.2.1, h.2.2⟩
  have h1 : buildConvs
      [⟨some "a", some "2024-01-01", some "m1", some "p1"⟩,
       ⟨some "a", some "2024-01-02", some "m2", some "p2"⟩,
       ⟨some "b", some "2024-01-01", some "m3", some "p3"⟩] =
      [⟨"a", some "2024-01-02", some "m2", 2, "p2"⟩,
       ⟨"b", some "2024-01-01", some "m3", 1, "p3"⟩] := by decide
  unfold list_conversations_agg
  rw [h1]
  have hc : pyStrLe (convKey ⟨"b", some "2024-01-01", some "m3", 1, "p3"⟩)
      (convKey ⟨"a", some "2024-01-02", some "m2", 2, "p2"⟩) = true := by decide
  simp [pySortByKeyRev, List.mergeSort, pySliceTo, hc]
